import Mathlib

/-!
Verification of the Tetris engine in src/tetris.c.

The board is the global `char board[BOARD_HEIGHT][BOARD_WIDTH]`, modelled as a
list of rows, each row a list of cells; the C code stores either EMPTY_CELL or
FILLED_CELL in each slot, modelled by the two-valued `Cell`.  Piece state
(`s_Tetromino`) keeps the C field names; coordinates are `Int` because the C
`int` coordinates go negative during tentative moves.  The mutating C functions
become state-passing functions: a function mutating the tetromino returns the
(success flag, resulting tetromino) pair; a function mutating the board returns
the new board.  The main-loop session state and its per-iteration updates are
modelled by `GameState`/`stepInput`.
-/

set_option maxRecDepth 100000

namespace Tetris

/-- BOARD_WIDTH from the source (20). -/
def BOARD_WIDTH : Nat := 20

/-- BOARD_HEIGHT from the source (20). -/
def BOARD_HEIGHT : Nat := 20

/-- A board slot: the source writes EMPTY_CELL or FILLED_CELL into it. -/
inductive Cell where
  | Empty
  | Filled
deriving DecidableEq, Repr

/-- The test cell == EMPTY_CELL of the source. -/
def isEmptyCell : Cell → Bool
  | .Empty => true
  | .Filled => false

abbrev Row := List Cell

abbrev Board := List Row

/-- A row of EMPTY_CELLs, as initBoard writes it. -/
def emptyRow : Row := List.replicate BOARD_WIDTH Cell.Empty

/-- initBoard: every cell set to EMPTY_CELL. -/
def initBoard : Board := List.replicate BOARD_HEIGHT emptyRow

/-- The read board[y][x] (the C code only reads it at in-range indices). -/
def getCell (b : Board) (y x : Nat) : Cell :=
  (b.getD y []).getD x Cell.Empty

/-- The write board[y][x] = v (the C code only writes at in-range indices). -/
def setCell (b : Board) (y x : Nat) (v : Cell) : Board :=
  b.set y ((b.getD y []).set x v)

/-- e_TetrominoType: the 7 shapes (NUM_OF_SHAPES is their count). -/
inductive e_TetrominoType where
  | I_SHAPE
  | O_SHAPE
  | T_SHAPE
  | J_SHAPE
  | L_SHAPE
  | S_SHAPE
  | Z_SHAPE
deriving DecidableEq, Fintype, Repr

/-- NUM_OF_SHAPES. -/
def NUM_OF_SHAPES : Nat := 7

/-- The enum value of each e_TetrominoType constant. -/
def typeIdx : e_TetrominoType → Nat
  | .I_SHAPE => 0
  | .O_SHAPE => 1
  | .T_SHAPE => 2
  | .J_SHAPE => 3
  | .L_SHAPE => 4
  | .S_SHAPE => 5
  | .Z_SHAPE => 6

/-- s_Tetromino: x, y, type, rotation (rotation kept in 0..3 by the code). -/
structure s_Tetromino where
  x : Int
  y : Int
  type : e_TetrominoType
  rotation : Nat
deriving DecidableEq, Repr

/-- TETROMINO_SHAPE[NUM_OF_SHAPES][4][4][4], the literal table of the source:
1 is a filled area, 0 an empty one; indexed [type][rotation][y][x]. -/
def TETROMINO_SHAPE : List (List (List (List Nat))) := [
  -- I_SHAPE, index 0
  [
    [[0, 0, 0, 0],
     [1, 1, 1, 1],
     [0, 0, 0, 0],
     [0, 0, 0, 0]],
    [[0, 0, 1, 0],
     [0, 0, 1, 0],
     [0, 0, 1, 0],
     [0, 0, 1, 0]],
    [[0, 0, 0, 0],
     [0, 0, 0, 0],
     [1, 1, 1, 1],
     [0, 0, 0, 0]],
    [[0, 1, 0, 0],
     [0, 1, 0, 0],
     [0, 1, 0, 0],
     [0, 1, 0, 0]]
  ],
  -- O_SHAPE
  [
    [[0, 0, 0, 0],
     [0, 1, 1, 0],
     [0, 1, 1, 0],
     [0, 0, 0, 0]],
    [[0, 0, 0, 0],
     [0, 1, 1, 0],
     [0, 1, 1, 0],
     [0, 0, 0, 0]],
    [[0, 0, 0, 0],
     [0, 1, 1, 0],
     [0, 1, 1, 0],
     [0, 0, 0, 0]],
    [[0, 0, 0, 0],
     [0, 1, 1, 0],
     [0, 1, 1, 0],
     [0, 0, 0, 0]]
  ],
  -- T_SHAPE
  [
    [[0, 0, 0, 0],
     [0, 1, 0, 0],
     [1, 1, 1, 0],
     [0, 0, 0, 0]],
    [[0, 0, 0, 0],
     [0, 1, 0, 0],
     [0, 1, 1, 0],
     [0, 1, 0, 0]],
    [[0, 0, 0, 0],
     [0, 0, 0, 0],
     [1, 1, 1, 0],
     [0, 1, 0, 0]],
    [[0, 0, 0, 0],
     [0, 1, 0, 0],
     [1, 1, 0, 0],
     [0, 1, 0, 0]]
  ],
  -- J_SHAPE
  [
    [[0, 0, 0, 0],
     [1, 0, 0, 0],
     [1, 1, 1, 0],
     [0, 0, 0, 0]],
    [[0, 0, 0, 0],
     [0, 1, 1, 0],
     [0, 1, 0, 0],
     [0, 1, 0, 0]],
    [[0, 0, 0, 0],
     [0, 0, 0, 0],
     [1, 1, 1, 0],
     [0, 0, 1, 0]],
    [[0, 0, 0, 0],
     [0, 1, 0, 0],
     [0, 1, 0, 0],
     [1, 1, 0, 0]]
  ],
  -- L_SHAPE
  [
    [[0, 0, 0, 0],
     [0, 0, 1, 0],
     [1, 1, 1, 0],
     [0, 0, 0, 0]],
    [[0, 0, 0, 0],
     [0, 1, 0, 0],
     [0, 1, 0, 0],
     [0, 1, 1, 0]],
    [[0, 0, 0, 0],
     [0, 0, 0, 0],
     [1, 1, 1, 0],
     [1, 0, 0, 0]],
    [[0, 0, 0, 0],
     [1, 1, 0, 0],
     [0, 1, 0, 0],
     [0, 1, 0, 0]]
  ],
  -- S_SHAPE
  [
    [[0, 0, 0, 0],
     [0, 1, 1, 0],
     [1, 1, 0, 0],
     [0, 0, 0, 0]],
    [[0, 0, 0, 0],
     [0, 1, 0, 0],
     [0, 1, 1, 0],
     [0, 0, 1, 0]],
    [[0, 0, 0, 0],
     [0, 0, 0, 0],
     [0, 1, 1, 0],
     [1, 1, 0, 0]],
    [[0, 0, 0, 0],
     [1, 0, 0, 0],
     [1, 1, 0, 0],
     [0, 1, 0, 0]]
  ],
  -- Z_SHAPE
  [
    [[0, 0, 0, 0],
     [1, 1, 0, 0],
     [0, 1, 1, 0],
     [0, 0, 0, 0]],
    [[0, 0, 0, 0],
     [0, 0, 1, 0],
     [0, 1, 1, 0],
     [0, 1, 0, 0]],
    [[0, 0, 0, 0],
     [0, 0, 0, 0],
     [1, 1, 0, 0],
     [0, 1, 1, 0]],
    [[0, 0, 0, 0],
     [0, 1, 0, 0],
     [1, 1, 0, 0],
     [1, 0, 0, 0]]
  ]
]

/-- The table read TETROMINO_SHAPE[type][rotation][y][x]. -/
def shapeAt (ty : e_TetrominoType) (rot y x : Nat) : Nat :=
  (((TETROMINO_SHAPE.getD (typeIdx ty) []).getD rot []).getD y []).getD x 0

/-- createTetronino: rotation 0, x = BOARD_WIDTH / 2 - 2, y = 0; the type comes
from rand() in the source, passed explicitly here. -/
def createTetronino (ty : e_TetrominoType) : s_Tetromino :=
  { type := ty, rotation := 0, x := (BOARD_WIDTH : Int) / 2 - 2, y := 0 }

/-- The nested loops for (x in 0..4) for (y in 0..4) of the source, as the
list of visited (x, y) pairs in visiting order. -/
def offs16 : List (Nat × Nat) :=
  (List.range 4).flatMap fun x => (List.range 4).map fun y => (x, y)

/-- is_in_valid_position: for every local (x, y) whose shape entry is set,
the absolute cell must be inside the board and not already occupied. -/
def is_in_valid_position (t : s_Tetromino) (b : Board) : Bool :=
  offs16.all fun p =>
    if shapeAt t.type t.rotation p.2 p.1 = 1 then
      let boardX : Int := t.x + (p.1 : Int)
      let boardY : Int := t.y + (p.2 : Int)
      if boardX < 0 ∨ boardX ≥ (BOARD_WIDTH : Int) ∨
         boardY < 0 ∨ boardY ≥ (BOARD_HEIGHT : Int) then false
      else if !(isEmptyCell (getCell b boardY.toNat boardX.toNat)) then false
      else true
    else true

/-- moveTetrominoDown: y++, validate, restore on failure. -/
def moveTetrominoDown (t : s_Tetromino) (b : Board) : Bool × s_Tetromino :=
  let t2 := { t with y := t.y + 1 }
  if is_in_valid_position t2 b then (true, t2) else (false, t)

/-- moveTetrominoLeft: x--, validate, restore on failure. -/
def moveTetrominoLeft (t : s_Tetromino) (b : Board) : Bool × s_Tetromino :=
  let t2 := { t with x := t.x - 1 }
  if is_in_valid_position t2 b then (true, t2) else (false, t)

/-- moveTetrominoRight: x++, validate, restore on failure. -/
def moveTetrominoRight (t : s_Tetromino) (b : Board) : Bool × s_Tetromino :=
  let t2 := { t with x := t.x + 1 }
  if is_in_valid_position t2 b then (true, t2) else (false, t)

/-- rotateTetromino: rotation := (rotation + 1) % 4, validate, restore the
default rotation on failure. -/
def rotateTetromino (t : s_Tetromino) (b : Board) : Bool × s_Tetromino :=
  let newRotation := (t.rotation + 1) % 4
  let t2 := { t with rotation := newRotation }
  if is_in_valid_position t2 b then (true, t2) else (false, t)

/-- The body of placeTetromino's nested loops over one list of (x, y) pairs:
each set shape entry writes FILLED_CELL at the absolute cell. -/
def placeCells (t : s_Tetromino) : List (Nat × Nat) → Board → Board
  | [], b => b
  | p :: rest, b =>
    let b2 :=
      if shapeAt t.type t.rotation p.2 p.1 = 1 then
        setCell b (t.y + (p.2 : Int)).toNat (t.x + (p.1 : Int)).toNat Cell.Filled
      else b
    placeCells t rest b2

/-- placeTetromino over the loop order of the source. -/
def placeTetromino (t : s_Tetromino) (b : Board) : Board :=
  placeCells t offs16 b

/-- The inner loop of clearLines: a row is complete when no column of it
holds EMPTY_CELL. -/
def rowCompleteB (r : Row) : Bool :=
  (List.range BOARD_WIDTH).all fun x => !(isEmptyCell (r.getD x Cell.Empty))

/-- lineComplete for board row y (the source scans board[y][x], x < BOARD_WIDTH). -/
def lineCompleteAt (b : Board) (y : Nat) : Bool :=
  rowCompleteB (b.getD y [])

/-- The shift after a cleared row y: rows 1..y take the previous contents of
rows 0..y-1 and row 0 becomes empty; rows below y are untouched. -/
def removeRowAt (b : Board) (y : Nat) : Board :=
  emptyRow :: (b.take y ++ b.drop (y + 1))

/-- The for (y = BOARD_HEIGHT - 1; y >= 0; y--) loop of clearLines.  After a
cleared row the source does y++ so the same index is rescanned; here that is
the recursive call at the same y.  The fuel argument only bounds the number of
loop iterations, which is at most BOARD_HEIGHT ordinary steps plus one extra
step per cleared row. -/
def clearLinesLoop : Nat → Nat → Board → Nat × Board
  | 0, _, b => (0, b)
  | fuel + 1, y, b =>
    if lineCompleteAt b y then
      let r := clearLinesLoop fuel y (removeRowAt b y)
      (r.1 + 1, r.2)
    else
      match y with
      | 0 => (0, b)
      | y2 + 1 => clearLinesLoop fuel y2 b

/-- clearLines: scan from BOARD_HEIGHT - 1 down to 0; 41 iterations always
suffice for the 20-row board. -/
def clearLines (b : Board) : Nat × Board :=
  clearLinesLoop 41 (BOARD_HEIGHT - 1) b

/-- isGameOver: a filled cell in the top row. -/
def isGameOver (b : Board) : Bool :=
  !((List.range BOARD_WIDTH).all fun x => isEmptyCell (getCell b 0 x))

/-- The state main keeps across loop iterations: the board, the active piece,
score, level, linesCleared, dropSpeed and the gameOver flag. -/
structure GameState where
  board : Board
  piece : s_Tetromino
  score : Nat
  level : Nat
  linesCleared : Nat
  dropSpeed : Nat
  gameOver : Bool
deriving DecidableEq, Repr

/-- One observable event of a main-loop iteration: one of the handled keys, or
the gravity autodrop firing (tick).  keyS and tick carry the type rand() gives
the replacement piece when the drop locks. -/
inductive Input where
  | keyA
  | keyD
  | keyW
  | keyS (spawn : e_TetrominoType)
  | tick (spawn : e_TetrominoType)
  | keyQ
deriving DecidableEq, Repr

/-- The shared body of the s-key handler and the autodrop when
moveTetrominoDown failed: placeTetromino, clearLines, then on lines > 0 the
counter updates in source order (linesCleared += lines; score += lines * 100 *
level with the old level; level = linesCleared / 10 + 1;
dropSpeed = 500000 / level), then createTetronino and the game-over check. -/
def lockAndSpawn (spawn : e_TetrominoType) (s : GameState) : GameState :=
  let b := placeTetromino s.piece s.board
  let res := clearLines b
  let lines := res.1
  let b2 := res.2
  let ln := if lines > 0 then s.linesCleared + lines else s.linesCleared
  let sc := if lines > 0 then s.score + lines * 100 * s.level else s.score
  let lv := if lines > 0 then ln / 10 + 1 else s.level
  let ds := if lines > 0 then 500000 / lv else s.dropSpeed
  let p := createTetronino spawn
  { board := b2, piece := p, score := sc, level := lv, linesCleared := ln,
    dropSpeed := ds, gameOver := s.gameOver || !(is_in_valid_position p b2) }

/-- One iteration of the while(!gameOver) loop under one input event; once
gameOver holds, the loop body no longer runs. -/
def stepInput (i : Input) (s : GameState) : GameState :=
  if s.gameOver then s
  else
    match i with
    | .keyA => { s with piece := (moveTetrominoLeft s.piece s.board).2 }
    | .keyD => { s with piece := (moveTetrominoRight s.piece s.board).2 }
    | .keyW => { s with piece := (rotateTetromino s.piece s.board).2 }
    | .keyS spawn =>
      let r := moveTetrominoDown s.piece s.board
      if r.1 then { s with piece := r.2 } else lockAndSpawn spawn s
    | .tick spawn =>
      let r := moveTetrominoDown s.piece s.board
      if r.1 then { s with piece := r.2 } else lockAndSpawn spawn s
    | .keyQ => { s with gameOver := true }

/-- Run the loop over a list of input events. -/
def run : List Input → GameState → GameState
  | [], s => s
  | i :: is, s => run is (stepInput i s)

/-- The state right after main's initialisation (the first piece's type again
passed explicitly for rand()). -/
def initState (ty : e_TetrominoType) : GameState :=
  { board := initBoard, piece := createTetronino ty, score := 0, level := 1,
    linesCleared := 0, dropSpeed := 500000, gameOver := false }

/-- A session state the game loop can reach from the start. -/
def Reachable (s : GameState) : Prop :=
  ∃ ty inputs, run inputs (initState ty) = s

/-!
A decomposition of `stepInput`: the board, piece and gameOver flag evolve
independently of the four counters, and the counters change only at a lock
(the failed-descent branch), as a function of the lines clearLines returned
there.  `bpStep` is the board/piece part, emitting `some lines` at a lock;
`updateC` is the counter update of the source at a lock.
-/

/-- Board/piece/gameOver component of one loop iteration, together with the
clearLines result when this iteration locked the piece. -/
def bpStep (i : Input) (bp : Board × s_Tetromino × Bool) :
    (Board × s_Tetromino × Bool) × Option Nat :=
  match bp with
  | (b, p, go) =>
    if go then ((b, p, go), none)
    else
      match i with
      | .keyA => ((b, (moveTetrominoLeft p b).2, go), none)
      | .keyD => ((b, (moveTetrominoRight p b).2, go), none)
      | .keyW => ((b, (rotateTetromino p b).2, go), none)
      | .keyS spawn =>
        let r := moveTetrominoDown p b
        if r.1 then ((b, r.2, go), none)
        else
          let res := clearLines (placeTetromino p b)
          let np := createTetronino spawn
          ((res.2, np, go || !(is_in_valid_position np res.2)), some res.1)
      | .tick spawn =>
        let r := moveTetrominoDown p b
        if r.1 then ((b, r.2, go), none)
        else
          let res := clearLines (placeTetromino p b)
          let np := createTetronino spawn
          ((res.2, np, go || !(is_in_valid_position np res.2)), some res.1)
      | .keyQ => ((b, p, true), none)

/-- Board/piece/gameOver component of a whole run. -/
def bpRun : List Input → (Board × s_Tetromino × Bool) → (Board × s_Tetromino × Bool)
  | [], bp => bp
  | i :: is, bp => bpRun is (bpStep i bp).1

/-- The clearLines results of the locks of a run, in order. -/
def locksOf : List Input → (Board × s_Tetromino × Bool) → List Nat
  | [], _ => []
  | i :: is, bp =>
    match bpStep i bp with
    | (bp2, none) => locksOf is bp2
    | (bp2, some lines) => lines :: locksOf is bp2

/-- The counter updates at a lock, in source order: linesCleared += lines,
score += lines * 100 * level (old level), level = linesCleared / 10 + 1,
dropSpeed = 500000 / level; all only when lines > 0. -/
def updateC (lines : Nat) (c : Nat × Nat × Nat × Nat) : Nat × Nat × Nat × Nat :=
  match c with
  | (sc, lv, ln, ds) =>
    if lines > 0 then
      (sc + lines * 100 * lv, (ln + lines) / 10 + 1, ln + lines,
        500000 / ((ln + lines) / 10 + 1))
    else (sc, lv, ln, ds)

/-- Apply the counter update when the iteration locked. -/
def applyLock : Option Nat → Nat × Nat × Nat × Nat → Nat × Nat × Nat × Nat
  | none, c => c
  | some lines, c => updateC lines c

/-- Counter evolution across the locks of a run. -/
def runC (ls : List Nat) (c : Nat × Nat × Nat × Nat) : Nat × Nat × Nat × Nat :=
  ls.foldl (fun c lines => updateC lines c) c

/-- Reassemble a GameState from its two components. -/
def mkState (bp : Board × s_Tetromino × Bool) (c : Nat × Nat × Nat × Nat) : GameState :=
  { board := bp.1, piece := bp.2.1, score := c.1, level := c.2.1,
    linesCleared := c.2.2.1, dropSpeed := c.2.2.2, gameOver := bp.2.2 }

/-- The I piece exactly as createTetronino spawns it. -/
def spawnI : s_Tetromino := createTetronino .I_SHAPE

/-- From an empty board with a freshly spawned I piece: drop five horizontal
I pieces side by side onto the bottom row (8 left moves, 4 left moves, none,
4 right moves, 8 right moves; each piece descends with 18 successful s-drops
and locks on the 19th), filling the bottom row so the fifth lock clears one
line and returns the board to empty. -/
def cycleInputs : List Input :=
  (List.replicate 8 Input.keyA ++ List.replicate 19 (Input.keyS .I_SHAPE)) ++
  (List.replicate 4 Input.keyA ++ List.replicate 19 (Input.keyS .I_SHAPE)) ++
  (List.replicate 19 (Input.keyS .I_SHAPE)) ++
  (List.replicate 4 Input.keyD ++ List.replicate 19 (Input.keyS .I_SHAPE)) ++
  (List.replicate 8 Input.keyD ++ List.replicate 19 (Input.keyS .I_SHAPE))

/-- The occupied-cell count of one 4x4 grid of TETROMINO_SHAPE. -/
def occupiedCount (ty : e_TetrominoType) (rot : Nat) : Nat :=
  offs16.countP fun p => shapeAt ty rot p.2 p.1 == 1

/-- Four successive rotateTetromino calls against a fixed board. -/
def rotateFour (t : s_Tetromino) (b : Board) : s_Tetromino :=
  (rotateTetromino (rotateTetromino (rotateTetromino (rotateTetromino t b).2 b).2 b).2 b).2

/-- A board whose only filled cell is (row 2, column 0). -/
def rotCexBoard : Board :=
  emptyRow :: emptyRow :: (Cell.Filled :: List.replicate 19 Cell.Empty) ::
    List.replicate 17 emptyRow

/-- An I piece, default rotation, with its 4x4 box at the top left corner. -/
def rotCexPiece : s_Tetromino := { x := 0, y := 0, type := .I_SHAPE, rotation := 0 }

/-- Iterate moveTetrominoDown, keeping the piece each call returns. -/
def iterDown : Nat → s_Tetromino → Board → s_Tetromino
  | 0, t, _ => t
  | n + 1, t, b => iterDown n (moveTetrominoDown t b).2 b

/-- The success flag of call number k + 1 of moveTetrominoDown in the
spec's descent scenario: an I piece spawned on the empty board. -/
def nthDownI (k : Nat) : Bool :=
  (moveTetrominoDown (iterDown k (createTetronino .I_SHAPE) initBoard) initBoard).1

/-- A row of FILLED_CELLs. -/
def fullRow : Row := List.replicate BOARD_WIDTH Cell.Filled

/-- A board whose two bottom rows are complete and the rest empty: the
regression board for clearing rows that become adjacent mid-scan. -/
def adjacentRowsBoard : Board := List.replicate 18 emptyRow ++ [fullRow, fullRow]

/-- A board whose bottom row is complete and the rest empty. -/
def oneRowBoard : Board := List.replicate 19 emptyRow ++ [fullRow]

/-- Well-formed board: the dimensions the C array has. -/
def WFBoard (b : Board) : Prop :=
  b.length = BOARD_HEIGHT ∧ ∀ r ∈ b, r.length = BOARD_WIDTH

/-- The number of filled cells of one row. -/
def countFilledRow (r : Row) : Nat := r.countP fun c => !(isEmptyCell c)

/-- The number of filled cells of the whole board. -/
def countFilled (b : Board) : Nat := (b.map countFilledRow).sum

theorem stepInput_decomp (i : Input) (b : Board) (p : s_Tetromino)
    (sc lv ln ds : Nat) (go : Bool) :
    stepInput i
        { board := b, piece := p, score := sc, level := lv, linesCleared := ln,
          dropSpeed := ds, gameOver := go } =
      mkState (bpStep i (b, p, go)).1 (applyLock (bpStep i (b, p, go)).2 (sc, lv, ln, ds)) := by
  cases go with
  | true => simp [stepInput, bpStep, mkState, applyLock]
  | false =>
    cases i with
    | keyA => simp [stepInput, bpStep, mkState, applyLock]
    | keyD => simp [stepInput, bpStep, mkState, applyLock]
    | keyW => simp [stepInput, bpStep, mkState, applyLock]
    | keyQ => simp [stepInput, bpStep, mkState, applyLock]
    | keyS spawn =>
      by_cases h : (moveTetrominoDown p b).1 <;>
        simp only [stepInput, bpStep, h, Bool.false_eq_true, if_false, if_true,
          Bool.true_eq_false, reduceIte, mkState, applyLock, lockAndSpawn, updateC] <;>
        by_cases hl : (clearLines (placeTetromino p b)).1 > 0 <;>
        simp [hl]
    | tick spawn =>
      by_cases h : (moveTetrominoDown p b).1 <;>
        simp only [stepInput, bpStep, h, Bool.false_eq_true, if_false, if_true,
          Bool.true_eq_false, reduceIte, mkState, applyLock, lockAndSpawn, updateC] <;>
        by_cases hl : (clearLines (placeTetromino p b)).1 > 0 <;>
        simp [hl]

theorem run_decomp (is : List Input) (b : Board) (p : s_Tetromino)
    (sc lv ln ds : Nat) (go : Bool) :
    run is
        { board := b, piece := p, score := sc, level := lv, linesCleared := ln,
          dropSpeed := ds, gameOver := go } =
      mkState (bpRun is (b, p, go)) (runC (locksOf is (b, p, go)) (sc, lv, ln, ds)) := by
  induction is generalizing b p sc lv ln ds go with
  | nil => rfl
  | cons i is ih =>
    have hrun : run (i :: is)
        { board := b, piece := p, score := sc, level := lv, linesCleared := ln,
          dropSpeed := ds, gameOver := go } =
        run is (stepInput i
          { board := b, piece := p, score := sc, level := lv, linesCleared := ln,
            dropSpeed := ds, gameOver := go }) := rfl
    rw [hrun, stepInput_decomp]
    rcases hbp : bpStep i (b, p, go) with ⟨⟨b2, p2, go2⟩, o⟩
    have hbpr : bpRun (i :: is) (b, p, go) = bpRun is (b2, p2, go2) := by
      simp only [bpRun, hbp]
    cases o with
    | none =>
      have hlo : locksOf (i :: is) (b, p, go) = locksOf is (b2, p2, go2) := by
        simp only [locksOf, hbp]
      rw [hbpr, hlo]
      exact ih b2 p2 sc lv ln ds go2
    | some lines =>
      have hlo : locksOf (i :: is) (b, p, go) = lines :: locksOf is (b2, p2, go2) := by
        simp only [locksOf, hbp]
      rw [hbpr, hlo]
      rcases hC : updateC lines (sc, lv, ln, ds) with ⟨sc2, lv2, ln2, ds2⟩
      have hrc : runC (lines :: locksOf is (b2, p2, go2)) (sc, lv, ln, ds) =
          runC (locksOf is (b2, p2, go2)) (sc2, lv2, ln2, ds2) := by
        simp only [runC, List.foldl, hC]
      rw [hrc]
      have hmk : mkState ((b2, p2, go2), some lines).1
            (applyLock ((b2, p2, go2), some lines).2 (sc, lv, ln, ds)) =
          { board := b2, piece := p2, score := sc2, level := lv2, linesCleared := ln2,
            dropSpeed := ds2, gameOver := go2 } := by
        simp [mkState, applyLock, hC]
      rw [hmk]
      exact ih b2 p2 sc2 lv2 ln2 ds2 go2

theorem run_append (is1 is2 : List Input) (s : GameState) :
    run (is1 ++ is2) s = run is2 (run is1 s) := by
  induction is1 generalizing s with
  | nil => rfl
  | cons i is1 ih => simp [run, ih]

theorem levelInv_step (i : Input) (s : GameState)
    (h : s.level = s.linesCleared / 10 + 1) :
    (stepInput i s).level = (stepInput i s).linesCleared / 10 + 1 := by
  obtain ⟨b, p, sc, lv, ln, ds, go⟩ := s
  rw [stepInput_decomp]
  rcases hbp : bpStep i (b, p, go) with ⟨⟨b2, p2, go2⟩, _ | lines⟩
  · simpa [mkState, applyLock] using h
  · by_cases hl : lines > 0 <;> simpa [mkState, applyLock, updateC, hl] using h

theorem levelInv_run (is : List Input) (s : GameState)
    (h : s.level = s.linesCleared / 10 + 1) :
    (run is s).level = (run is s).linesCleared / 10 + 1 := by
  induction is generalizing s with
  | nil => exact h
  | cons i is ih => exact ih _ (levelInv_step i s h)

theorem step_mono (i : Input) (s : GameState) :
    s.score ≤ (stepInput i s).score ∧ s.linesCleared ≤ (stepInput i s).linesCleared := by
  obtain ⟨b, p, sc, lv, ln, ds, go⟩ := s
  rw [stepInput_decomp]
  rcases hbp : bpStep i (b, p, go) with ⟨⟨b2, p2, go2⟩, _ | lines⟩
  · simp [mkState, applyLock]
  · by_cases hl : lines > 0 <;> simp [mkState, applyLock, updateC, hl]

set_option maxRecDepth 100000 in
theorem cycle_bp : bpRun cycleInputs (initBoard, spawnI, false) = (initBoard, spawnI, false) := by
  decide

set_option maxRecDepth 100000 in
theorem cycle_locks : locksOf cycleInputs (initBoard, spawnI, false) = [0, 0, 0, 0, 1] := by
  decide

theorem cycle_pump (sc lv ln ds : Nat) :
    run cycleInputs
        { board := initBoard, piece := spawnI, score := sc, level := lv,
          linesCleared := ln, dropSpeed := ds, gameOver := false } =
      { board := initBoard, piece := spawnI, score := sc + 1 * 100 * lv,
        level := (ln + 1) / 10 + 1, linesCleared := ln + 1,
        dropSpeed := 500000 / ((ln + 1) / 10 + 1), gameOver := false } := by
  rw [run_decomp, cycle_bp, cycle_locks]
  rfl

/-- Every total line count is reachable, with the session's level and
dropSpeed the values the lock update leaves for it. -/
theorem reach_pumped (n : Nat) :
    ∃ sc, Reachable
      { board := initBoard, piece := spawnI, score := sc, level := n / 10 + 1,
        linesCleared := n, dropSpeed := 500000 / (n / 10 + 1), gameOver := false } := by
  induction n with
  | zero => exact ⟨0, .I_SHAPE, [], rfl⟩
  | succ n ih =>
    obtain ⟨sc, ty, is, h⟩ := ih
    refine ⟨sc + 1 * 100 * (n / 10 + 1), ty, is ++ cycleInputs, ?_⟩
    rw [run_append, h, cycle_pump]

/-- C6: at every reachable state of the game loop, level = linesCleared / 10 + 1,
and neither score nor linesCleared decreases across any further loop iteration,
whatever input event drives it. -/
theorem session_counters (s : GameState) (h : Reachable s) :
    s.level = s.linesCleared / 10 + 1 ∧
    ∀ i : Input, s.score ≤ (stepInput i s).score ∧
      s.linesCleared ≤ (stepInput i s).linesCleared := by
  refine ⟨?_, fun i => step_mono i s⟩
  obtain ⟨ty, is, hr⟩ := h
  rw [← hr]
  exact levelInv_run is (initState ty) (by show (1 : Nat) = 0 / 10 + 1; decide)

/-- Witness for session_counters at the initial state. -/
theorem session_counters_witness :
    (initState e_TetrominoType.I_SHAPE).level =
      (initState e_TetrominoType.I_SHAPE).linesCleared / 10 + 1 :=
  (session_counters (initState e_TetrominoType.I_SHAPE)
    ⟨e_TetrominoType.I_SHAPE, [], rfl⟩).1

/-- C8: the claim fails on the code.  dropSpeed = 500000 / level has no floor,
so the session can reach a state whose gravity interval is 0: after 5000000
cleared lines the level is 500001 and 500000 / 500001 = 0. -/
theorem dropSpeed_zero_reachable :
    ∃ s : GameState, Reachable s ∧ s.dropSpeed = 0 := by
  obtain ⟨sc, h⟩ := reach_pumped 5000000
  refine ⟨_, h, ?_⟩
  show (500000 / (5000000 / 10 + 1) : Nat) = 0
  decide

/-- The optimistic mutate / validate / rollback pattern shared by the four
attempt operations, for an arbitrary mutated piece t2. -/
theorem tryOp_spec (t t2 : s_Tetromino) (b : Board) :
    ((if is_in_valid_position t2 b then ((true : Bool), t2) else ((false : Bool), t)).1 = false ↔
      is_in_valid_position t2 b = false) ∧
    ((if is_in_valid_position t2 b then ((true : Bool), t2) else ((false : Bool), t)).1 = false →
      (if is_in_valid_position t2 b then ((true : Bool), t2) else ((false : Bool), t)).2 = t) ∧
    ((if is_in_valid_position t2 b then ((true : Bool), t2) else ((false : Bool), t)).1 = true →
      (if is_in_valid_position t2 b then ((true : Bool), t2) else ((false : Bool), t)).2 = t2 ∧
      is_in_valid_position
        (if is_in_valid_position t2 b then ((true : Bool), t2) else ((false : Bool), t)).2 b =
        true) := by
  cases hv : is_in_valid_position t2 b <;> simp [hv]

/-- C2: each attempt operation (down, left, right, rotate) returns false
exactly when the tentatively mutated piece would be in an invalid position; a
false return leaves the piece exactly as it was, and a true return keeps the
one intended mutation, whose result is in a valid position. -/
theorem attempt_ops_spec (t : s_Tetromino) (b : Board) :
    (((moveTetrominoDown t b).1 = false ↔
        is_in_valid_position { t with y := t.y + 1 } b = false) ∧
      ((moveTetrominoDown t b).1 = false → (moveTetrominoDown t b).2 = t) ∧
      ((moveTetrominoDown t b).1 = true →
        (moveTetrominoDown t b).2 = { t with y := t.y + 1 } ∧
        is_in_valid_position (moveTetrominoDown t b).2 b = true)) ∧
    (((moveTetrominoLeft t b).1 = false ↔
        is_in_valid_position { t with x := t.x - 1 } b = false) ∧
      ((moveTetrominoLeft t b).1 = false → (moveTetrominoLeft t b).2 = t) ∧
      ((moveTetrominoLeft t b).1 = true →
        (moveTetrominoLeft t b).2 = { t with x := t.x - 1 } ∧
        is_in_valid_position (moveTetrominoLeft t b).2 b = true)) ∧
    (((moveTetrominoRight t b).1 = false ↔
        is_in_valid_position { t with x := t.x + 1 } b = false) ∧
      ((moveTetrominoRight t b).1 = false → (moveTetrominoRight t b).2 = t) ∧
      ((moveTetrominoRight t b).1 = true →
        (moveTetrominoRight t b).2 = { t with x := t.x + 1 } ∧
        is_in_valid_position (moveTetrominoRight t b).2 b = true)) ∧
    (((rotateTetromino t b).1 = false ↔
        is_in_valid_position { t with rotation := (t.rotation + 1) % 4 } b = false) ∧
      ((rotateTetromino t b).1 = false → (rotateTetromino t b).2 = t) ∧
      ((rotateTetromino t b).1 = true →
        (rotateTetromino t b).2 = { t with rotation := (t.rotation + 1) % 4 } ∧
        is_in_valid_position (rotateTetromino t b).2 b = true)) :=
  ⟨tryOp_spec t { t with y := t.y + 1 } b, tryOp_spec t { t with x := t.x - 1 } b,
    tryOp_spec t { t with x := t.x + 1 } b,
    tryOp_spec t { t with rotation := (t.rotation + 1) % 4 } b⟩

/-- C4: every one of the 7 x 4 shape grids of TETROMINO_SHAPE has exactly 4
occupied cells, hence at least one. -/
theorem shape_table_counts :
    ∀ ty : e_TetrominoType, ∀ rot : Fin 4,
      occupiedCount ty rot.val = 4 ∧ 0 < occupiedCount ty rot.val := by
  decide

/-- C5 as stated is false on the code: from a legal piece (an I piece at the
top left corner of a board whose only filled cell is (2,0)) the first rotation
succeeds and the remaining three fail, so four rotateTetromino calls leave the
piece at rotation 1, not its original orientation 0. -/
theorem rotate_four_cex :
    is_in_valid_position rotCexPiece rotCexBoard = true ∧
    (rotateFour rotCexPiece rotCexBoard).rotation ≠ rotCexPiece.rotation := by
  decide

/-- C5 amended: rotateTetromino never changes the position or type, and when
every one of the four orientations is valid at the piece's position (so each of
the four calls succeeds), four rotateTetromino calls return the piece to its
original orientation and position. -/
theorem rotate_eq_of_valid (t : s_Tetromino) (b : Board)
    (h : is_in_valid_position { t with rotation := (t.rotation + 1) % 4 } b = true) :
    rotateTetromino t b = (true, { t with rotation := (t.rotation + 1) % 4 }) := by
  simp [rotateTetromino, h]

theorem rotate_four_id (t : s_Tetromino) (b : Board) (hrot : t.rotation < 4)
    (hall : ∀ r : Fin 4, is_in_valid_position { t with rotation := r.val } b = true) :
    rotateFour t b = t ∧
    ((rotateTetromino t b).2.x = t.x ∧ (rotateTetromino t b).2.y = t.y ∧
      (rotateTetromino t b).2.type = t.type) := by
  obtain ⟨x, y, ty, r⟩ := t
  have hr : r < 4 := hrot
  have h1 := hall ⟨(r + 1) % 4, Nat.mod_lt _ (by norm_num)⟩
  have h2 := hall ⟨((r + 1) % 4 + 1) % 4, Nat.mod_lt _ (by norm_num)⟩
  have h3 := hall ⟨(((r + 1) % 4 + 1) % 4 + 1) % 4, Nat.mod_lt _ (by norm_num)⟩
  have h4 := hall ⟨((((r + 1) % 4 + 1) % 4 + 1) % 4 + 1) % 4, Nat.mod_lt _ (by norm_num)⟩
  simp only [Fin.val_mk] at h1 h2 h3 h4
  have e1 : rotateTetromino (⟨x, y, ty, r⟩ : s_Tetromino) b =
      (true, ⟨x, y, ty, (r + 1) % 4⟩) := rotate_eq_of_valid _ _ h1
  have e2 : rotateTetromino (⟨x, y, ty, (r + 1) % 4⟩ : s_Tetromino) b =
      (true, ⟨x, y, ty, ((r + 1) % 4 + 1) % 4⟩) := rotate_eq_of_valid _ _ h2
  have e3 : rotateTetromino (⟨x, y, ty, ((r + 1) % 4 + 1) % 4⟩ : s_Tetromino) b =
      (true, ⟨x, y, ty, (((r + 1) % 4 + 1) % 4 + 1) % 4⟩) := rotate_eq_of_valid _ _ h3
  have e4 : rotateTetromino (⟨x, y, ty, (((r + 1) % 4 + 1) % 4 + 1) % 4⟩ : s_Tetromino) b =
      (true, ⟨x, y, ty, ((((r + 1) % 4 + 1) % 4 + 1) % 4 + 1) % 4⟩) := rotate_eq_of_valid _ _ h4
  have hmod : ((((r + 1) % 4 + 1) % 4 + 1) % 4 + 1) % 4 = r := by omega
  refine ⟨?_, ?_⟩
  · show (rotateTetromino (rotateTetromino (rotateTetromino
        (rotateTetromino ⟨x, y, ty, r⟩ b).2 b).2 b).2 b).2 = (⟨x, y, ty, r⟩ : s_Tetromino)
    rw [e1]
    show (rotateTetromino (rotateTetromino
      (rotateTetromino ⟨x, y, ty, (r + 1) % 4⟩ b).2 b).2 b).2 = _
    rw [e2]
    show (rotateTetromino (rotateTetromino ⟨x, y, ty, ((r + 1) % 4 + 1) % 4⟩ b).2 b).2 = _
    rw [e3]
    show (rotateTetromino ⟨x, y, ty, (((r + 1) % 4 + 1) % 4 + 1) % 4⟩ b).2 = _
    rw [e4, hmod]
  · rw [e1]
    exact ⟨rfl, rfl, rfl⟩

/-- Witness for rotate_four_id: the freshly spawned I piece on the empty
board, where all four orientations are valid. -/
theorem rotate_four_id_witness : rotateFour spawnI initBoard = spawnI :=
  (rotate_four_id spawnI initBoard (by decide) (by decide)).1

/-- C7 as stated is false on the code: in the descent scenario the 19th call
of moveTetrominoDown already returns false (the spawned I piece occupies board
row y + 1, so it rests on the floor after 18 successful descents). -/
theorem nineteenth_down_false :
    nthDownI 18 = false ∧ ¬ (∀ k : Fin 19, nthDownI k.val = true) := by
  decide

/-- C7 amended: for the I piece spawned on the empty board, the first 18
moveTetrominoDown calls return true and the 19th returns false. -/
theorem i_piece_descent :
    (∀ k : Fin 18, nthDownI k.val = true) ∧ nthDownI 18 = false := by
  decide


theorem isEmptyCell_iff (c : Cell) : isEmptyCell c = true ↔ c = Cell.Empty := by
  cases c <;> simp [isEmptyCell]

theorem mem_offs16 (p : Nat × Nat) : p ∈ offs16 ↔ p.1 < 4 ∧ p.2 < 4 := by
  obtain ⟨a, c⟩ := p
  simp only [offs16, List.mem_flatMap, List.mem_map, List.mem_range, Prod.mk.injEq]
  constructor
  · rintro ⟨x, hx, y, hy, rfl, rfl⟩
    exact ⟨hx, hy⟩
  · rintro ⟨ha, hc⟩
    exact ⟨a, ha, c, hc, rfl, rfl⟩

theorem valid_position_cells (t : s_Tetromino) (b : Board) :
    is_in_valid_position t b = true ↔
      (∀ lx ly : Nat, lx < 4 → ly < 4 → shapeAt t.type t.rotation ly lx = 1 →
        0 ≤ t.x + (lx : Int) ∧ t.x + (lx : Int) < (BOARD_WIDTH : Int) ∧
        0 ≤ t.y + (ly : Int) ∧ t.y + (ly : Int) < (BOARD_HEIGHT : Int) ∧
        getCell b (t.y + (ly : Int)).toNat (t.x + (lx : Int)).toNat = Cell.Empty) := by
  rw [is_in_valid_position, List.all_eq_true]
  constructor
  · intro h lx ly hlx hly hsh
    have hp := h (lx, ly) ((mem_offs16 (lx, ly)).mpr ⟨hlx, hly⟩)
    simp only [hsh, if_true] at hp
    by_cases hbad : (t.x + (lx : Int) < 0 ∨ t.x + (lx : Int) ≥ (BOARD_WIDTH : Int) ∨
        t.y + (ly : Int) < 0 ∨ t.y + (ly : Int) ≥ (BOARD_HEIGHT : Int))
    · simp only [hbad, if_true] at hp
      cases hp
    · rw [if_neg hbad] at hp
      push_neg at hbad
      obtain ⟨ha, hb, hc, hd⟩ := hbad
      refine ⟨ha, hb, hc, hd, ?_⟩
      cases hcl : isEmptyCell (getCell b (t.y + (ly : Int)).toNat (t.x + (lx : Int)).toNat) with
      | false => simp [hcl] at hp
      | true => exact (isEmptyCell_iff _).mp hcl
  · intro h p hp
    obtain ⟨hp1, hp2⟩ := (mem_offs16 p).mp hp
    by_cases hsh : shapeAt t.type t.rotation p.2 p.1 = 1
    · obtain ⟨ha, hb, hc, hd, he⟩ := h p.1 p.2 hp1 hp2 hsh
      rw [if_pos hsh, if_neg (by push_neg; exact ⟨ha, hb, hc, hd⟩)]
      simp [he, isEmptyCell]
    · simp [hsh]

/-- C3: is_in_valid_position returns true exactly when every local cell the
shape table marks occupied lands inside the board on an Empty cell. -/
theorem is_in_valid_position_iff (t : s_Tetromino) (b : Board) :
    is_in_valid_position t b = true ↔
      (∀ lx ly : Nat, lx < 4 → ly < 4 → shapeAt t.type t.rotation ly lx = 1 →
        0 ≤ t.x + (lx : Int) ∧ t.x + (lx : Int) < (BOARD_WIDTH : Int) ∧
        0 ≤ t.y + (ly : Int) ∧ t.y + (ly : Int) < (BOARD_HEIGHT : Int) ∧
        getCell b (t.y + (ly : Int)).toNat (t.x + (lx : Int)).toNat = Cell.Empty) :=
  valid_position_cells t b

theorem getD_set_list {α : Type} (l : List α) (i j : Nat) (a d : α) :
    (l.set i a).getD j d = if i = j ∧ i < l.length then a else l.getD j d := by
  rw [List.getD_eq_getElem?_getD, List.getElem?_set]
  by_cases h : i = j
  · subst h
    by_cases hl : i < l.length
    · simp [hl, List.getD_eq_getElem?_getD]
    · have hnone : l[i]? = none := List.getElem?_eq_none (by omega)
      simp [hl, List.getD_eq_getElem?_getD, hnone]
  · simp [h, List.getD_eq_getElem?_getD]

theorem getD_row_length (b : Board) (hwf : WFBoard b) (y : Nat) (hy : y < BOARD_HEIGHT) :
    (b.getD y []).length = BOARD_WIDTH := by
  obtain ⟨hlen, hrows⟩ := hwf
  have hylen : y < b.length := by omega
  rw [List.getD_eq_getElem?_getD, List.getElem?_eq_getElem hylen]
  exact hrows _ (List.getElem_mem hylen)

theorem setCell_WF (b : Board) (y x : Nat) (v : Cell) (hwf : WFBoard b) :
    WFBoard (setCell b y x v) := by
  obtain ⟨hlen, hrows⟩ := hwf
  by_cases hy : y < b.length
  · refine ⟨by simp [setCell, hlen], ?_⟩
    intro r hr
    rcases List.mem_or_eq_of_mem_set hr with h | h
    · exact hrows _ h
    · subst h
      rw [List.length_set]
      exact getD_row_length b ⟨hlen, hrows⟩ y (by omega)
  · rw [setCell, List.set_eq_of_length_le (by omega)]
    exact ⟨hlen, hrows⟩

theorem getCell_setCell (b : Board) (hwf : WFBoard b) (y x : Nat)
    (hy : y < BOARD_HEIGHT) (hx : x < BOARD_WIDTH) (v : Cell) (r c : Nat) :
    getCell (setCell b y x v) r c = if y = r ∧ x = c then v else getCell b r c := by
  have hrow := getD_row_length b hwf y hy
  obtain ⟨hlen, hrows⟩ := hwf
  unfold getCell setCell
  rw [getD_set_list]
  by_cases hyr : y = r
  · subst hyr
    rw [if_pos ⟨rfl, by omega⟩, getD_set_list]
    by_cases hxc : x = c
    · subst hxc
      rw [if_pos ⟨rfl, by omega⟩, if_pos ⟨rfl, rfl⟩]
    · rw [if_neg (by tauto), if_neg (by tauto)]
  · rw [if_neg (by tauto), if_neg (by tauto)]

theorem placeCells_WF (t : s_Tetromino) (offs : List (Nat × Nat)) (b : Board)
    (hwf : WFBoard b) : WFBoard (placeCells t offs b) := by
  induction offs generalizing b with
  | nil => exact hwf
  | cons p rest ih =>
    simp only [placeCells]
    split
    · exact ih _ (setCell_WF b _ _ Cell.Filled hwf)
    · exact ih _ hwf

theorem getCell_placeCells (t : s_Tetromino) (offs : List (Nat × Nat)) (b : Board)
    (hwf : WFBoard b)
    (hb : ∀ p ∈ offs, shapeAt t.type t.rotation p.2 p.1 = 1 →
      0 ≤ t.x + (p.1 : Int) ∧ t.x + (p.1 : Int) < (BOARD_WIDTH : Int) ∧
      0 ≤ t.y + (p.2 : Int) ∧ t.y + (p.2 : Int) < (BOARD_HEIGHT : Int))
    (r c : Nat) :
    getCell (placeCells t offs b) r c =
      if ∃ p ∈ offs, shapeAt t.type t.rotation p.2 p.1 = 1 ∧
          (t.y + (p.2 : Int)).toNat = r ∧ (t.x + (p.1 : Int)).toNat = c
      then Cell.Filled else getCell b r c := by
  induction offs generalizing b with
  | nil => simp [placeCells]
  | cons p rest ih =>
    have hbr : ∀ q ∈ rest, shapeAt t.type t.rotation q.2 q.1 = 1 →
        0 ≤ t.x + (q.1 : Int) ∧ t.x + (q.1 : Int) < (BOARD_WIDTH : Int) ∧
        0 ≤ t.y + (q.2 : Int) ∧ t.y + (q.2 : Int) < (BOARD_HEIGHT : Int) :=
      fun q hq => hb q (List.mem_cons_of_mem _ hq)
    have hcons : (∃ q ∈ p :: rest, shapeAt t.type t.rotation q.2 q.1 = 1 ∧
        (t.y + (q.2 : Int)).toNat = r ∧ (t.x + (q.1 : Int)).toNat = c) ↔
        ((shapeAt t.type t.rotation p.2 p.1 = 1 ∧ (t.y + (p.2 : Int)).toNat = r ∧
          (t.x + (p.1 : Int)).toNat = c) ∨
          ∃ q ∈ rest, shapeAt t.type t.rotation q.2 q.1 = 1 ∧
            (t.y + (q.2 : Int)).toNat = r ∧ (t.x + (q.1 : Int)).toNat = c) := by
      constructor
      · rintro ⟨q, hq, hqq⟩
        rcases List.mem_cons.mp hq with rfl | hq2
        · exact Or.inl hqq
        · exact Or.inr ⟨q, hq2, hqq⟩
      · rintro (hP | ⟨q, hq, hqq⟩)
        · exact ⟨p, List.mem_cons_self _ _, hP⟩
        · exact ⟨q, List.mem_cons_of_mem _ hq, hqq⟩
    by_cases hsh : shapeAt t.type t.rotation p.2 p.1 = 1
    · obtain ⟨h1, h2, h3, h4⟩ := hb p (List.mem_cons_self _ _) hsh
      have hyn : (t.y + (p.2 : Int)).toNat < BOARD_HEIGHT := by
        simp only [BOARD_HEIGHT] at h4 ⊢
        omega
      have hxn : (t.x + (p.1 : Int)).toNat < BOARD_WIDTH := by
        simp only [BOARD_WIDTH] at h2 ⊢
        omega
      rw [show placeCells t (p :: rest) b = placeCells t rest
          (if shapeAt t.type t.rotation p.2 p.1 = 1 then
            setCell b (t.y + (p.2 : Int)).toNat (t.x + (p.1 : Int)).toNat Cell.Filled
          else b) from rfl, if_pos hsh]
      rw [ih _ (setCell_WF b _ _ Cell.Filled hwf) hbr]
      rw [getCell_setCell b hwf _ _ hyn hxn Cell.Filled r c]
      rw [if_congr hcons rfl rfl]
      by_cases he : ∃ q ∈ rest, shapeAt t.type t.rotation q.2 q.1 = 1 ∧
          (t.y + (q.2 : Int)).toNat = r ∧ (t.x + (q.1 : Int)).toNat = c
      · rw [if_pos he, if_pos (Or.inr he)]
      · by_cases hpc : (t.y + (p.2 : Int)).toNat = r ∧ (t.x + (p.1 : Int)).toNat = c
        · rw [if_neg he, if_pos hpc, if_pos (Or.inl ⟨hsh, hpc.1, hpc.2⟩)]
        · rw [if_neg he, if_neg hpc,
            if_neg (fun h => h.elim (fun hh => hpc ⟨hh.2.1, hh.2.2⟩) he)]
    · rw [show placeCells t (p :: rest) b = placeCells t rest
          (if shapeAt t.type t.rotation p.2 p.1 = 1 then
            setCell b (t.y + (p.2 : Int)).toNat (t.x + (p.1 : Int)).toNat Cell.Filled
          else b) from rfl, if_neg hsh]
      rw [ih _ hwf hbr]
      rw [if_congr hcons rfl rfl]
      exact (if_congr ⟨fun h => h.elim (fun hh => absurd hh.1 hsh) id, Or.inr⟩ rfl rfl).symm

theorem placeTetromino_spec (t : s_Tetromino) (b : Board) (hwf : WFBoard b)
    (hv : is_in_valid_position t b = true) :
    (∀ lx ly : Nat, lx < 4 → ly < 4 → shapeAt t.type t.rotation ly lx = 1 →
      0 ≤ t.x + (lx : Int) ∧ t.x + (lx : Int) < (BOARD_WIDTH : Int) ∧
      0 ≤ t.y + (ly : Int) ∧ t.y + (ly : Int) < (BOARD_HEIGHT : Int)) ∧
    WFBoard (placeTetromino t b) ∧
    (∀ r c : Nat,
      ((∃ lx ly : Nat, lx < 4 ∧ ly < 4 ∧ shapeAt t.type t.rotation ly lx = 1 ∧
          t.y + (ly : Int) = (r : Int) ∧ t.x + (lx : Int) = (c : Int)) →
        getCell (placeTetromino t b) r c = Cell.Filled) ∧
      (¬ (∃ lx ly : Nat, lx < 4 ∧ ly < 4 ∧ shapeAt t.type t.rotation ly lx = 1 ∧
          t.y + (ly : Int) = (r : Int) ∧ t.x + (lx : Int) = (c : Int)) →
        getCell (placeTetromino t b) r c = getCell b r c)) := by
  have hcells := (valid_position_cells t b).mp hv
  have hb : ∀ p ∈ offs16, shapeAt t.type t.rotation p.2 p.1 = 1 →
      0 ≤ t.x + (p.1 : Int) ∧ t.x + (p.1 : Int) < (BOARD_WIDTH : Int) ∧
      0 ≤ t.y + (p.2 : Int) ∧ t.y + (p.2 : Int) < (BOARD_HEIGHT : Int) := by
    intro p hp hsh
    obtain ⟨hp1, hp2⟩ := (mem_offs16 p).mp hp
    obtain ⟨h1, h2, h3, h4, _⟩ := hcells p.1 p.2 hp1 hp2 hsh
    exact ⟨h1, h2, h3, h4⟩
  refine ⟨fun lx ly hlx hly hsh => ?_, placeCells_WF t offs16 b hwf, fun r c => ?_⟩
  · obtain ⟨h1, h2, h3, h4, _⟩ := hcells lx ly hlx hly hsh
    exact ⟨h1, h2, h3, h4⟩
  · have hplace := getCell_placeCells t offs16 b hwf hb r c
    constructor
    · rintro ⟨lx, ly, hlx, hly, hsh, hyr, hxc⟩
      have hcond : ∃ p ∈ offs16, shapeAt t.type t.rotation p.2 p.1 = 1 ∧
          (t.y + (p.2 : Int)).toNat = r ∧ (t.x + (p.1 : Int)).toNat = c :=
        ⟨(lx, ly), (mem_offs16 _).mpr ⟨hlx, hly⟩, hsh, by omega, by omega⟩
      rw [placeTetromino, hplace, if_pos hcond]
    · intro hnot
      have hcond : ¬ ∃ p ∈ offs16, shapeAt t.type t.rotation p.2 p.1 = 1 ∧
          (t.y + (p.2 : Int)).toNat = r ∧ (t.x + (p.1 : Int)).toNat = c := by
        rintro ⟨p, hp, hsh, hyr, hxc⟩
        obtain ⟨hp1, hp2⟩ := (mem_offs16 p).mp hp
        obtain ⟨h1, h2, h3, h4, _⟩ := hcells p.1 p.2 hp1 hp2 hsh
        exact hnot ⟨p.1, p.2, hp1, hp2, hsh, by omega, by omega⟩
      rw [placeTetromino, hplace, if_neg hcond]

theorem placeTetromino_spec_witness : WFBoard (placeTetromino spawnI initBoard) :=
  (placeTetromino_spec spawnI initBoard ⟨by decide, by decide⟩ (by decide)).2.1

theorem emptyRow_not_complete : rowCompleteB emptyRow = false := by decide

theorem take_succ_getD (b : Board) (y : Nat) (hy : y < b.length) :
    b.take (y + 1) = b.take y ++ [b.getD y []] := by
  rw [List.take_succ, List.getElem?_eq_getElem hy]
  rw [List.getD_eq_getElem?_getD, List.getElem?_eq_getElem hy]
  rfl

theorem clearLinesLoop_succ (fuel y : Nat) (b : Board) :
    clearLinesLoop (fuel + 1) y b =
      if lineCompleteAt b y then
        ((clearLinesLoop fuel y (removeRowAt b y)).1 + 1,
          (clearLinesLoop fuel y (removeRowAt b y)).2)
      else
        match y with
        | 0 => (0, b)
        | y2 + 1 => clearLinesLoop fuel y2 b := rfl

theorem clearLinesLoop_eq (fuel : Nat) : ∀ (y : Nat) (b : Board), y < b.length →
    y + 1 + (b.take (y + 1)).countP rowCompleteB ≤ fuel →
    clearLinesLoop fuel y b =
      ((b.take (y + 1)).countP rowCompleteB,
        List.replicate ((b.take (y + 1)).countP rowCompleteB) emptyRow ++
          (b.take (y + 1)).filter (fun r => !(rowCompleteB r)) ++ b.drop (y + 1)) := by
  induction fuel with
  | zero =>
    intro y b hy hfuel
    omega
  | succ fuel ih =>
    intro y b hy hfuel
    have htake : b.take (y + 1) = b.take y ++ [b.getD y []] := take_succ_getD b y hy
    have htklen : (b.take y).length = y := by
      rw [List.length_take]
      omega
    rw [clearLinesLoop_succ]
    by_cases hc : lineCompleteAt b y = true
    · rw [if_pos hc]
      have hcY : rowCompleteB (b.getD y []) = true := hc
      have h1 : (removeRowAt b y).take (y + 1) = emptyRow :: b.take y := by
        show (emptyRow :: (b.take y ++ b.drop (y + 1))).take (y + 1) = _
        rw [List.take_succ_cons, List.take_left' htklen]
      have h2 : (removeRowAt b y).drop (y + 1) = b.drop (y + 1) := by
        show (emptyRow :: (b.take y ++ b.drop (y + 1))).drop (y + 1) = _
        rw [List.drop_succ_cons, List.drop_left' htklen]
      have hlen' : y < (removeRowAt b y).length := by
        show y < (emptyRow :: (b.take y ++ b.drop (y + 1))).length
        simp only [List.length_cons, List.length_append, List.length_take, List.length_drop]
        omega
      have hcnt : ((removeRowAt b y).take (y + 1)).countP rowCompleteB + 1 =
          (b.take (y + 1)).countP rowCompleteB := by
        rw [h1, htake, List.countP_cons, List.countP_append, List.countP_cons,
          List.countP_nil, hcY, emptyRow_not_complete]
        simp
      have hfil : ((removeRowAt b y).take (y + 1)).filter (fun r => !(rowCompleteB r)) =
          emptyRow :: (b.take (y + 1)).filter (fun r => !(rowCompleteB r)) := by
        rw [h1, htake, List.filter_cons, List.filter_append, List.filter_cons,
          List.filter_nil, hcY, emptyRow_not_complete]
        simp
      rw [ih y (removeRowAt b y) hlen' (by omega)]
      refine Prod.ext ?_ ?_
      · show ((removeRowAt b y).take (y + 1)).countP rowCompleteB + 1 =
          (b.take (y + 1)).countP rowCompleteB
        exact hcnt
      · show List.replicate (((removeRowAt b y).take (y + 1)).countP rowCompleteB) emptyRow ++
            ((removeRowAt b y).take (y + 1)).filter (fun r => !(rowCompleteB r)) ++
            (removeRowAt b y).drop (y + 1) =
          List.replicate ((b.take (y + 1)).countP rowCompleteB) emptyRow ++
            (b.take (y + 1)).filter (fun r => !(rowCompleteB r)) ++ b.drop (y + 1)
        rw [hfil, h2, ← hcnt]
        rw [List.replicate_succ']
        simp [List.append_assoc]
    · rw [if_neg hc]
      have hcY : rowCompleteB (b.getD y []) = false := by
        rw [← Bool.not_eq_true]
        exact hc
      cases y with
      | zero =>
        have htake1 : b.take 1 = [b.getD 0 []] := htake
        refine Prod.ext ?_ ?_
        · show 0 = (b.take 1).countP rowCompleteB
          rw [htake1, List.countP_cons, List.countP_nil, hcY]
          rfl
        · show b = List.replicate ((b.take 1).countP rowCompleteB) emptyRow ++
            (b.take 1).filter (fun r => !(rowCompleteB r)) ++ b.drop 1
          rw [htake1, List.countP_cons, List.countP_nil, hcY, List.filter_cons,
            List.filter_nil, hcY]
          have hsplit := List.take_append_drop 1 b
          rw [htake1] at hsplit
          simpa using hsplit.symm
      | succ y2 =>
        have htake2 : b.take (y2 + 1 + 1) = b.take (y2 + 1) ++ [b.getD (y2 + 1) []] := htake
        have hdrop2 : b.drop (y2 + 1) = b.getD (y2 + 1) [] :: b.drop (y2 + 2) := by
          rw [List.drop_eq_getElem_cons hy]
          rw [List.getD_eq_getElem?_getD, List.getElem?_eq_getElem hy]
          rfl
        have hcnt2 : (b.take (y2 + 1 + 1)).countP rowCompleteB =
            (b.take (y2 + 1)).countP rowCompleteB := by
          rw [htake2, List.countP_append, List.countP_cons, List.countP_nil, hcY]
          rfl
        show clearLinesLoop fuel y2 b =
          ((b.take (y2 + 1 + 1)).countP rowCompleteB,
            List.replicate ((b.take (y2 + 1 + 1)).countP rowCompleteB) emptyRow ++
              (b.take (y2 + 1 + 1)).filter (fun r => !(rowCompleteB r)) ++ b.drop (y2 + 1 + 1))
        rw [ih y2 b (by omega) (by rw [hcnt2] at hfuel; omega)]
        refine Prod.ext ?_ ?_
        · exact hcnt2.symm
        · show List.replicate ((b.take (y2 + 1)).countP rowCompleteB) emptyRow ++
              (b.take (y2 + 1)).filter (fun r => !(rowCompleteB r)) ++ b.drop (y2 + 1) =
            List.replicate ((b.take (y2 + 1 + 1)).countP rowCompleteB) emptyRow ++
              (b.take (y2 + 1 + 1)).filter (fun r => !(rowCompleteB r)) ++ b.drop (y2 + 1 + 1)
          rw [hcnt2, htake2, List.filter_append, List.filter_cons, List.filter_nil, hdrop2, hcY]
          simp [List.append_assoc]


theorem clearLines_eq (b : Board) (hlen : b.length = BOARD_HEIGHT) :
    clearLines b = (b.countP rowCompleteB,
      List.replicate (b.countP rowCompleteB) emptyRow ++
        b.filter (fun r => !(rowCompleteB r))) := by
  have hcnt : (b.take (19 + 1)).countP rowCompleteB ≤ 20 := by
    calc (b.take (19 + 1)).countP rowCompleteB ≤ (b.take (19 + 1)).length :=
        List.countP_le_length _
    _ ≤ 20 := by
        rw [List.length_take]
        omega
  have hlen20 : b.length = 20 := hlen
  show clearLinesLoop 41 19 b = _
  rw [clearLinesLoop_eq 41 19 b (by omega) (by omega)]
  rw [List.take_of_length_le (by omega), List.drop_of_length_le (by omega)]
  simp

/-- C1: clearLines removes every complete row (the survivors keep their order
under freshly inserted empty top rows), returns the number of removed rows,
and afterwards no row of the board is complete; stacked complete rows are all
cleared in the one call because the count is the number of ALL complete rows
of the board. -/
theorem clearLines_spec (b : Board) (hwf : WFBoard b) :
    (clearLines b).1 = b.countP rowCompleteB ∧
    (clearLines b).2 = List.replicate (b.countP rowCompleteB) emptyRow ++
      b.filter (fun r => !(rowCompleteB r)) ∧
    (∀ y : Nat, y < BOARD_HEIGHT → lineCompleteAt (clearLines b).2 y = false) := by
  obtain ⟨hlen, hrows⟩ := hwf
  have h := clearLines_eq b hlen
  have hflen : (b.filter fun r => !(rowCompleteB r)).length =
      b.length - b.countP rowCompleteB := by
    have hsplit := List.length_eq_countP_add_countP rowCompleteB b
    have hfun : (fun a => decide ¬(rowCompleteB a = true)) = (fun r => !(rowCompleteB r)) := by
      funext r
      cases rowCompleteB r <;> simp
    rw [hfun] at hsplit
    rw [← List.countP_eq_length_filter]
    omega
  refine ⟨by rw [h], by rw [h], ?_⟩
  intro y hy
  rw [h]
  show rowCompleteB ((List.replicate (b.countP rowCompleteB) emptyRow ++
    b.filter fun r => !(rowCompleteB r)).getD y []) = false
  by_cases hyk : y < b.countP rowCompleteB
  · rw [List.getD_append _ _ _ y (by rw [List.length_replicate]; omega)]
    have hrep : (List.replicate (b.countP rowCompleteB) emptyRow).getD y [] = emptyRow := by
      rw [List.getD_eq_getElem?_getD, List.getElem?_replicate]
      simp [hyk]
    rw [hrep]
    exact emptyRow_not_complete
  · rw [List.getD_append_right _ _ _ y (by rw [List.length_replicate]; omega)]
    rw [List.length_replicate]
    have hcle : b.countP rowCompleteB ≤ b.length := List.countP_le_length _
    have hidx : y - b.countP rowCompleteB < (b.filter fun r => !(rowCompleteB r)).length := by
      rw [hflen]
      omega
    have hmem : ((b.filter fun r => !(rowCompleteB r)).getD (y - b.countP rowCompleteB) []) ∈
        (b.filter fun r => !(rowCompleteB r)) := by
      rw [List.getD_eq_getElem?_getD, List.getElem?_eq_getElem hidx]
      exact List.getElem_mem hidx
    obtain ⟨-, hprop⟩ := List.mem_filter.mp hmem
    rw [← Bool.not_eq_true]
    intro hcontra
    rw [hcontra] at hprop
    cases hprop

theorem sum_filter_split (p : Row → Bool) (L : List Row) :
    ((L.filter p).map countFilledRow).sum +
      ((L.filter (fun x => !(p x))).map countFilledRow).sum =
    (L.map countFilledRow).sum := by
  induction L with
  | nil => simp
  | cons a L ih =>
    by_cases hp : p a = true
    · rw [List.filter_cons_of_pos hp,
        List.filter_cons_of_neg (p := fun x => !(p x)) (by simp [hp]),
        List.map_cons, List.sum_cons, List.map_cons, List.sum_cons]
      omega
    · have hp2 : (!(p a)) = true := by
        cases hpa : p a
        · rfl
        · exact absurd hpa hp
      rw [List.filter_cons_of_neg hp, List.filter_cons_of_pos (p := fun x => !(p x)) hp2,
        List.map_cons, List.sum_cons, List.map_cons, List.sum_cons]
      omega

theorem complete_row_filled (r : Row) (hlen : r.length = BOARD_WIDTH)
    (hc : rowCompleteB r = true) : countFilledRow r = BOARD_WIDTH := by
  rw [← hlen]
  apply List.countP_eq_length.mpr
  intro c hcmem
  obtain ⟨n, hn, hnc⟩ := List.mem_iff_getElem.mp hcmem
  have hall := List.all_eq_true.mp hc (n) (List.mem_range.mpr (by omega))
  rw [List.getD_eq_getElem?_getD, List.getElem?_eq_getElem (by omega : n < r.length)] at hall
  simpa [hnc] using hall

theorem sum_map_const (L : List Row) (m : Nat) (h : ∀ r ∈ L, countFilledRow r = m) :
    (L.map countFilledRow).sum = L.length * m := by
  induction L with
  | nil => simp
  | cons a L ih =>
    simp only [List.map_cons, List.sum_cons, List.length_cons]
    rw [h a (List.mem_cons_self a L), ih (fun r hr => h r (List.mem_cons_of_mem _ hr))]
    ring

/-- C10: clearLines removes exactly n * BOARD_WIDTH filled cells when it
returns n, and n is at most BOARD_HEIGHT. -/
theorem clearLines_filled_count (b : Board) (hwf : WFBoard b) :
    (clearLines b).1 ≤ BOARD_HEIGHT ∧
    countFilled (clearLines b).2 + (clearLines b).1 * BOARD_WIDTH = countFilled b := by
  obtain ⟨hlen, hrows⟩ := hwf
  have h := clearLines_eq b hlen
  constructor
  · rw [h]
    show List.countP rowCompleteB b ≤ BOARD_HEIGHT
    calc List.countP rowCompleteB b ≤ b.length := List.countP_le_length _
    _ = BOARD_HEIGHT := hlen
  · rw [h]
    show countFilled (List.replicate (b.countP rowCompleteB) emptyRow ++
      b.filter fun r => !(rowCompleteB r)) + (b.countP rowCompleteB) * BOARD_WIDTH =
      countFilled b
    have hzero : countFilledRow emptyRow = 0 := by decide
    have hcompl : ((b.filter rowCompleteB).map countFilledRow).sum =
        (b.filter rowCompleteB).length * BOARD_WIDTH :=
      sum_map_const _ _ (fun r hr =>
        complete_row_filled r (hrows r (List.mem_filter.mp hr).1) (List.mem_filter.mp hr).2)
    have hsplit := sum_filter_split rowCompleteB b
    rw [countFilled, countFilled, List.map_append, List.sum_append, List.map_replicate,
      hzero, List.sum_replicate, smul_zero, Nat.zero_add]
    rw [← hsplit, hcompl, ← List.countP_eq_length_filter]
    omega

/-- Witness for clearLines_spec: the regression board whose rows 18 and 19 are
both complete clears both rows in the one call. -/
theorem clearLines_spec_witness :
    (clearLines adjacentRowsBoard).1 = List.countP rowCompleteB adjacentRowsBoard ∧
    (clearLines adjacentRowsBoard).1 = 2 :=
  ⟨(clearLines_spec adjacentRowsBoard ⟨by decide, by decide⟩).1, by decide⟩

/-- Witness for clearLines_filled_count at a board with one complete bottom row. -/
theorem clearLines_filled_count_witness :
    countFilled (clearLines oneRowBoard).2 + (clearLines oneRowBoard).1 * BOARD_WIDTH =
      countFilled oneRowBoard :=
  (clearLines_filled_count oneRowBoard ⟨by decide, by decide⟩).2


end Tetris
